import Mathlib

set_option maxRecDepth 1000000

/-!
Shallow embedding of `src/bitcoin/getaddr.py` (a minimal Bitcoin P2P client:
message framing, version handshake, `getaddr`/`addr` exchange) together with
proofs checking the natural-language specification against it.

Bytes are modelled as `Nat` (each wire byte is `< 256`; arithmetic that in
Python is done on fixed-width machine integers is modelled with explicit
`% 2^w`).  A TCP socket is modelled as the list of chunks successive
`recv` calls deliver; the empty chunk list means the peer has closed the
connection (Python's `recv` returning `b""`).  Functions that raise in
Python return `Except Err`.
-/

/-- Error kinds raised by the source (all are `IOError`/`struct.error`/
`UnicodeError` in Python; the constructors follow the spec's taxonomy). -/
inductive Err where
  /-- `recv_all`: connection closed before enough bytes arrived. -/
  | unexpectedEof
  /-- `read_msg`: header magic mismatch. -/
  | badMagic
  /-- command bytes not valid ASCII (encode or decode). -/
  | invalidCommandEncoding
  /-- `read_msg`: payload checksum mismatch. -/
  | checksumMismatch
  /-- `decode_addr_payload`: not enough bytes for a CompactSize or a record. -/
  | truncated
  /-- `struct.pack` range violation (a value does not fit its format). -/
  | valueError
deriving DecidableEq, Repr

/-- Decidable equality for `Except` results, so concrete runs of the
embedded functions can be checked by `decide`. -/
instance {ε α : Type} [DecidableEq ε] [DecidableEq α] : DecidableEq (Except ε α) := fun x y =>
  match x, y with
  | .ok a, .ok b =>
    match decEq a b with
    | isTrue h => isTrue (h ▸ rfl)
    | isFalse h => isFalse fun hc => h (Except.ok.inj hc)
  | .error a, .error b =>
    match decEq a b with
    | isTrue h => isTrue (h ▸ rfl)
    | isFalse h => isFalse fun hc => h (Except.error.inj hc)
  | .ok _, .error _ => isFalse fun hc => Except.noConfusion hc
  | .error _, .ok _ => isFalse fun hc => Except.noConfusion hc

/-! ## Little-endian / big-endian byte helpers (the `struct` formats) -/

/-- Little-endian bytes of `v`, `w` bytes wide (`struct.pack` with `<`). -/
def leBytes : Nat → Nat → List Nat
  | 0, _ => []
  | w + 1, v => v % 256 :: leBytes w (v / 256)

/-- Value of a little-endian byte string (`struct.unpack` with `<`). -/
def leVal : List Nat → Nat
  | [] => 0
  | b :: bs => b + 256 * leVal bs

/-- Big-endian bytes of `v`, `w` bytes wide (`struct.pack` with `>`). -/
def beBytes : Nat → Nat → List Nat
  | 0, _ => []
  | w + 1, v => beBytes w (v / 256) ++ [v % 256]

/-- Value of a big-endian byte string (`struct.unpack` with `>`). -/
def beVal (l : List Nat) : Nat :=
  l.foldl (fun acc b => acc * 256 + b) 0




/-! ## SHA-256 (model of `hashlib.sha256`, FIPS 180-4)

The source uses `hashlib.sha256` for the message checksum.  The full
algorithm is implemented here over byte lists, with 32-bit words as
`Nat` reduced modulo `2^32`. -/

/-- 2^32, the modulus for SHA-256 word arithmetic. -/
def MASK32 : Nat := 4294967296

/-- Rotate a 32-bit word right by `n` bit positions. -/
def rotr32 (n x : Nat) : Nat :=
  ((x >>> n) ||| (x <<< (32 - n))) &&& 0xFFFFFFFF

/-- SHA-256 Ch function. -/
def shaCh (x y z : Nat) : Nat := (x &&& y) ^^^ ((x ^^^ 0xFFFFFFFF) &&& z)

/-- SHA-256 Maj function. -/
def shaMaj (x y z : Nat) : Nat := (x &&& y) ^^^ (x &&& z) ^^^ (y &&& z)

/-- SHA-256 Σ0. -/
def bigSigma0 (x : Nat) : Nat := rotr32 2 x ^^^ rotr32 13 x ^^^ rotr32 22 x

/-- SHA-256 Σ1. -/
def bigSigma1 (x : Nat) : Nat := rotr32 6 x ^^^ rotr32 11 x ^^^ rotr32 25 x

/-- SHA-256 σ0. -/
def smallSigma0 (x : Nat) : Nat := rotr32 7 x ^^^ rotr32 18 x ^^^ (x >>> 3)

/-- SHA-256 σ1. -/
def smallSigma1 (x : Nat) : Nat := rotr32 17 x ^^^ rotr32 19 x ^^^ (x >>> 10)

/-- The 64 SHA-256 round constants. -/
def shaK : List Nat :=
  [1116352408, 1899447441, 3049323471, 3921009573,
   961987163, 1508970993, 2453635748, 2870763221,
   3624381080, 310598401, 607225278, 1426881987,
   1925078388, 2162078206, 2614888103, 3248222580,
   3835390401, 4022224774, 264347078, 604807628,
   770255983, 1249150122, 1555081692, 1996064986,
   2554220882, 2821834349, 2952996808, 3210313671,
   3336571891, 3584528711, 113926993, 338241895,
   666307205, 773529912, 1294757372, 1396182291,
   1695183700, 1986661051, 2177026350, 2456956037,
   2730485921, 2820302411, 3259730800, 3345764771,
   3516065817, 3600352804, 4094571909, 275423344,
   430227734, 506948616, 659060556, 883997877,
   958139571, 1322822218, 1537002063, 1747873779,
   1955562222, 2024104815, 2227730452, 2361852424,
   2428436474, 2756734187, 3204031479, 3329325298]

/-- The eight SHA-256 working variables. -/
structure Sha256State where
  a : Nat
  b : Nat
  c : Nat
  d : Nat
  e : Nat
  f : Nat
  g : Nat
  h : Nat
deriving DecidableEq, Repr

/-- SHA-256 initial hash value. -/
def shaH0 : Sha256State :=
  ⟨1779033703, 3144134277, 1013904242, 2773480762, 1359893119, 2600822924, 528734635, 1541459225⟩

/-- Split a byte list into big-endian 32-bit words. -/
def beWords : List Nat → List Nat
  | b0 :: b1 :: b2 :: b3 :: rest => (((b0 * 256 + b1) * 256 + b2) * 256 + b3) :: beWords rest
  | _ => []

/-- Extend a 16-word message schedule by `k` additional words. -/
def extendSchedule : Nat → List Nat → List Nat
  | 0, ws => ws
  | k + 1, ws =>
    let n := ws.length
    let wNew := (smallSigma1 (ws.getD (n - 2) 0) + ws.getD (n - 7) 0 +
                 smallSigma0 (ws.getD (n - 15) 0) + ws.getD (n - 16) 0) % MASK32
    extendSchedule k (ws ++ [wNew])

/-- One SHA-256 compression round; `kw` is the pair (round constant, schedule word). -/
def shaRound (s : Sha256State) (kw : Nat × Nat) : Sha256State :=
  let t1 := (s.h + bigSigma1 s.e + shaCh s.e s.f s.g + kw.1 + kw.2) % MASK32
  let t2 := (bigSigma0 s.a + shaMaj s.a s.b s.c) % MASK32
  ⟨(t1 + t2) % MASK32, s.a, s.b, s.c, (s.d + t1) % MASK32, s.e, s.f, s.g⟩

/-- Compress one 64-byte block into the running state. -/
def shaCompress (s : Sha256State) (block : List Nat) : Sha256State :=
  let w := extendSchedule 48 (beWords block)
  let t := (shaK.zip w).foldl shaRound s
  ⟨(s.a + t.a) % MASK32, (s.b + t.b) % MASK32, (s.c + t.c) % MASK32, (s.d + t.d) % MASK32,
   (s.e + t.e) % MASK32, (s.f + t.f) % MASK32, (s.g + t.g) % MASK32, (s.h + t.h) % MASK32⟩

/-- Split a byte list into 64-byte blocks (structural recursion on a fuel
bound so the definition reduces in the kernel; the fuel never runs out
because each step drops at least one element). -/
def toBlocksGo : Nat → List Nat → List (List Nat)
  | _, [] => []
  | 0, _ :: _ => []
  | fuel + 1, b :: rest => ((b :: rest).take 64) :: toBlocksGo fuel ((b :: rest).drop 64)

/-- Split a byte list into 64-byte blocks. -/
def toBlocks (bs : List Nat) : List (List Nat) := toBlocksGo bs.length bs

/-- SHA-256 of a byte list: pad to a multiple of 64 bytes, compress each
block, output the final state big-endian. -/
def sha256 (msg : List Nat) : List Nat :=
  let padded := msg ++ [0x80] ++ List.replicate ((119 - msg.length % 64) % 64) 0 ++
                beBytes 8 ((8 * msg.length) % (MASK32 * MASK32))
  let fin := (toBlocks padded).foldl shaCompress shaH0
  beBytes 4 fin.a ++ beBytes 4 fin.b ++ beBytes 4 fin.c ++ beBytes 4 fin.d ++
  beBytes 4 fin.e ++ beBytes 4 fin.f ++ beBytes 4 fin.g ++ beBytes 4 fin.h

/-- `double_sha256` from the source: SHA-256 applied twice. -/
def double_sha256 (b : List Nat) : List Nat := sha256 (sha256 b)



/-! ## TransportReader: `recv_all` (src/bitcoin/getaddr.py lines 12-23)

A socket is a list of chunks that successive `recv` calls return, in
order; when the list is exhausted (or an empty chunk is met) `recv`
returns `b""`, which the source treats as the peer closing the
connection.  `recv(k)` returns at most `k` bytes: the front of the head
chunk, the rest of that chunk staying queued. -/

/-- The `while len(data) < n` loop of `recv_all`.  When the head chunk has
more than the `n - len(data)` bytes requested, the loop body leaves the
remainder queued and the next loop test exits immediately; that final
iteration is fused into the `.ok` of the second branch so the recursion
is structural on the chunk list. -/
def recvAllGo : List (List Nat) → Nat → List Nat → Except Err (List Nat × List (List Nat))
  | chunks, n, data =>
    if data.length < n then
      match chunks with
      | [] => .error .unexpectedEof
      | c :: rest =>
        let chunk := c.take (n - data.length)
        if chunk.isEmpty then .error .unexpectedEof
        else if (c.drop (n - data.length)).isEmpty then recvAllGo rest n (data ++ chunk)
        else .ok (data ++ chunk, c.drop (n - data.length) :: rest)
    else .ok (data, chunks)

/-- `recv_all(sock, n)`: read exactly `n` bytes, or fail with
`unexpectedEof` if the connection closes first.  Returns the bytes and
the remaining socket state. -/
def recv_all (chunks : List (List Nat)) (n : Nat) : Except Err (List Nat × List (List Nat)) :=
  recvAllGo chunks n []

/-! ## MessageCodec: `make_message` / `read_msg` (lines 26-119) -/

/-- The main-network magic constant from the source. -/
def MAGIC_MAINNET : Nat := 0xD9B4BEF9

/-- `struct.pack` "Ns" semantics: truncate to `n` bytes, pad with zeros. -/
def pack_s (n : Nat) (b : List Nat) : List Nat :=
  b.take n ++ List.replicate (n - b.length) 0

/-- `str.encode("ascii")`: the code points, failing if any is ≥ 128. -/
def asciiEncode (s : String) : Except Err (List Nat) :=
  if s.data.all (fun c => c.toNat < 128) then .ok (s.data.map Char.toNat)
  else .error .invalidCommandEncoding

/-- `bytes.decode("ascii")`: characters of the bytes, failing if any is ≥ 128. -/
def asciiDecode (b : List Nat) : Except Err String :=
  if b.all (fun x => x < 128) then .ok (String.mk (b.map Char.ofNat))
  else .error .invalidCommandEncoding

/-- `bytes.rstrip(b"\x00")`: remove trailing zero bytes. -/
def rstripZeros (b : List Nat) : List Nat :=
  (b.reverse.dropWhile (fun x => x == 0)).reverse

/-- `make_message(command, payload)` from the source: 24-byte header
(magic, command zero-padded through `"12s"`, payload length `"<I"`,
4-byte double-SHA256 checksum) followed by the payload.  `"<I"` raises
`struct.error` when the length does not fit 32 bits, and
`command.encode("ascii")` raises on non-ASCII commands. -/
def make_message (command : String) (payload : List Nat) : Except Err (List Nat) :=
  match asciiEncode command with
  | .error e => .error e
  | .ok cmdBytes =>
    let command_padded := cmdBytes ++ List.replicate (12 - cmdBytes.length) 0
    let checksum := (double_sha256 payload).take 4
    if payload.length < 4294967296 then
      .ok (leBytes 4 MAGIC_MAINNET ++ pack_s 12 command_padded ++
           leBytes 4 payload.length ++ pack_s 4 checksum ++ payload)
    else .error .valueError

/-- `read_msg(sock)` from the source: read the 24-byte header, unpack
`"<I12sI4s"`, check the magic, strip trailing zeros from the command and
decode it as ASCII, read the payload, verify the checksum.  Returns the
`(command, payload)` pair and the remaining socket state. -/
def read_msg (stream : List (List Nat)) : Except Err ((String × List Nat) × List (List Nat)) :=
  match recv_all stream 24 with
  | .error e => .error e
  | .ok (header, s1) =>
    let magic := leVal (header.take 4)
    let command_raw := (header.drop 4).take 12
    let length := leVal ((header.drop 16).take 4)
    let checksum := (header.drop 20).take 4
    if magic ≠ MAGIC_MAINNET then .error .badMagic
    else
      match asciiDecode (rstripZeros command_raw) with
      | .error e => .error e
      | .ok command =>
        match recv_all s1 length with
        | .error e => .error e
        | .ok (payload, s2) =>
          if (double_sha256 payload).take 4 ≠ checksum then .error .checksumMismatch
          else .ok ((command, payload), s2)

/-! ## VersionPayloadBuilder: `make_version_payload` (lines 35-79)

`timestamp` and `nonce` are taken as explicit arguments (in the source
their defaults are wall-clock time and a random 64-bit value, effects a
pure model cannot produce).  The two IP arguments stand for the 4-byte
result of `socket.inet_aton` on the dotted-quad strings the source
takes; its string parsing is not modelled. -/

/-- `struct.pack` "<B": one byte, raising if the value exceeds 255. -/
def packU8 (v : Nat) : Except Err (List Nat) :=
  if v < 256 then .ok [v] else .error .valueError

/-- `struct.pack` "<H": unsigned 16-bit little-endian with range check. -/
def packU16 (v : Nat) : Except Err (List Nat) :=
  if v < 65536 then .ok (leBytes 2 v) else .error .valueError

/-- `struct.pack` "<Q": unsigned 64-bit little-endian with range check. -/
def packU64 (v : Nat) : Except Err (List Nat) :=
  if v < 18446744073709551616 then .ok (leBytes 8 v) else .error .valueError

/-- `struct.pack` "<i": signed 32-bit little-endian (two's complement)
with range check. -/
def packI32 (v : Int) : Except Err (List Nat) :=
  if -2147483648 ≤ v ∧ v < 2147483648 then .ok (leBytes 4 (v % 4294967296).toNat)
  else .error .valueError

/-- `pack_ip` from the source: IPv4-mapped IPv6, 10 zero bytes then
`0xFF 0xFF` then the 4 IPv4 bytes. -/
def pack_ip (ipv4 : List Nat) : List Nat :=
  List.replicate 10 0 ++ [0xFF, 0xFF] ++ ipv4

/-- One 26-byte address block of the version payload:
`struct.pack("<Q16sH", services, pack_ip(ip), port)`.  Note the `<H`:
the source packs the port little-endian. -/
def addrBlock (services : Nat) (ipv4 : List Nat) (port : Nat) : Except Err (List Nat) := do
  let s ← packU64 services
  let p ← packU16 port
  .ok (s ++ pack_s 16 (pack_ip ipv4) ++ p)

/-- `make_version_payload` from the source:
`struct.pack("<iQQ26s26sQ", ...)` then the user-agent var_str then
`struct.pack("<i?", start_height, relay)`. -/
def make_version_payload (version : Int) (services : Nat) (timestamp : Nat)
    (addr_recv_ip : List Nat) (addr_recv_port : Nat)
    (addr_from_ip : List Nat) (addr_from_port : Nat)
    (nonce : Nat) (user_agent : List Nat) (start_height : Int) (relay : Bool) :
    Except Err (List Nat) := do
  let vB ← packI32 version
  let sB ← packU64 services
  let tB ← packU64 timestamp
  let recvB ← addrBlock services addr_recv_ip addr_recv_port
  let fromB ← addrBlock services addr_from_ip addr_from_port
  let nB ← packU64 nonce
  let uaLenB ← packU8 user_agent.length
  let hB ← packI32 start_height
  .ok (vB ++ sB ++ tB ++ pack_s 26 recvB ++ pack_s 26 fromB ++ nB ++
       (uaLenB ++ user_agent) ++ hB ++ [if relay then 1 else 0])

/-! ## `socket.inet_ntop` (model of the glibc implementation)

`decode_addr_payload` renders the 16 raw address bytes through
`socket.inet_ntop`, which CPython delegates to the platform (glibc)
function; it is modelled here after glibc's `inet_ntop.c`. -/

/-- `inet_ntop(AF_INET, b)`: dotted-decimal rendering of 4 bytes. -/
def inet_ntop4 (b : List Nat) : String :=
  String.intercalate "." (b.map (fun x => Nat.repr x))

/-- Lowercase hex rendering of one 16-bit group (C `"%x"`). -/
def hexStr (n : Nat) : String := String.mk (Nat.toDigits 16 n)

/-- The eight big-endian 16-bit groups of a 16-byte address. -/
def words16 : List Nat → List Nat
  | b0 :: b1 :: rest => (b0 * 256 + b1) :: words16 rest
  | _ => []

/-- Scan for the longest run of zero groups (first of equal length wins),
as in glibc's best/cur scan.  `cur`/`best` are `(base, length)` pairs. -/
def bestRunGo : List Nat → Nat → Option (Nat × Nat) → Option (Nat × Nat) → Option (Nat × Nat)
  | [], _, cur, best =>
    match cur, best with
    | some c, some b => if c.2 > b.2 then some c else some b
    | some c, none => some c
    | none, b => b
  | w :: ws, i, cur, best =>
    if w = 0 then
      match cur with
      | none => bestRunGo ws (i + 1) (some (i, 1)) best
      | some (b0, l) => bestRunGo ws (i + 1) (some (b0, l + 1)) best
    else
      match cur, best with
      | none, b => bestRunGo ws (i + 1) none b
      | some c, none => bestRunGo ws (i + 1) none (some c)
      | some c, some b => bestRunGo ws (i + 1) none (some (if c.2 > b.2 then c else b))

/-- Best zero run of the groups; runs of length < 2 are not abbreviated. -/
def bestRun (ws : List Nat) : Option (Nat × Nat) :=
  match bestRunGo ws 0 none none with
  | some (b, l) => if l < 2 then none else some (b, l)
  | none => none

/-- Whether group index `i` lies inside the best zero run. -/
def inRun (best : Option (Nat × Nat)) (i : Nat) : Bool :=
  match best with
  | some (base, len) => base ≤ i && i < base + len
  | none => false

/-- Base index of the best run (only used when the run exists). -/
def runBase : Option (Nat × Nat) → Nat
  | some (b, _) => b
  | none => 8

/-- glibc's "encapsulated IPv4" test at group 6: the best zero run starts
at 0 and covers the first 6 groups, or the first 7 with a last group
other than 1, or the first 5 with group 5 equal to `0xffff`. -/
def isV4Special (best : Option (Nat × Nat)) (ws : List Nat) : Bool :=
  match best with
  | some (base, len) =>
    base == 0 && (len == 6 || (len == 7 && ws.getD 7 0 != 1) ||
                  (len == 5 && ws.getD 5 0 == 0xffff))
  | none => false

/-- The glibc output loop over group indices 0..7: groups in the best run
are skipped (a single `:` at its start), each other group is preceded by
`:` unless first, and at group 6 an encapsulated IPv4 tail is printed in
dotted form, ending the loop. -/
def ntop6Go (ws bytes : List Nat) (best : Option (Nat × Nat)) : List Nat → String
  | [] => ""
  | i :: restIdx =>
    if inRun best i then
      (if i = runBase best then ":" else "") ++ ntop6Go ws bytes best restIdx
    else
      (if i ≠ 0 then ":" else "") ++
      (if i == 6 && isV4Special best ws then inet_ntop4 (bytes.drop 12)
       else hexStr (ws.getD i 0) ++ ntop6Go ws bytes best restIdx)

/-- `inet_ntop(AF_INET6, bytes)` after glibc: compress the longest zero
run with `::`, lowercase hex groups, IPv4-mapped/compatible tails in
dotted form; a trailing run of zeros gets its closing `:`. -/
def inet_ntop6 (bytes : List Nat) : String :=
  let ws := words16 bytes
  let best := bestRun ws
  ntop6Go ws bytes best [0, 1, 2, 3, 4, 5, 6, 7] ++
    (match best with
     | some (b, l) => if b + l = 8 then ":" else ""
     | none => "")

/-! ## AddressListDecoder: `decode_addr_payload` (lines 125-175) -/

/-- One decoded peer record (the dictionary the source appends). -/
structure Peer where
  timestamp : Nat
  services : Nat
  ip : String
  port : Nat
deriving DecidableEq, Repr

/-- The CompactSize count parse at the head of `decode_addr_payload`
(lines 130-143): classify on the first byte, then read 0, 2, 4 or 8
little-endian bytes.  `payload[0]` on an empty buffer raises
`IndexError` and a short `struct.unpack_from` raises `struct.error`;
both are rendered `truncated` (the spec folds `MalformedCompactSize`
into `Truncated`).  Returns the value and the bytes consumed. -/
def parseCompactSize (payload : List Nat) : Except Err (Nat × Nat) :=
  match payload with
  | [] => .error .truncated
  | first :: _ =>
    if first < 0xFD then .ok (first, 1)
    else if first = 0xFD then
      if 3 ≤ payload.length then .ok (leVal ((payload.drop 1).take 2), 3)
      else .error .truncated
    else if first = 0xFE then
      if 5 ≤ payload.length then .ok (leVal ((payload.drop 1).take 4), 5)
      else .error .truncated
    else
      if 9 ≤ payload.length then .ok (leVal ((payload.drop 1).take 8), 9)
      else .error .truncated

/-- The IP rendering branch (lines 159-165).  The second test is kept
exactly as in the source: it compares the first ten bytes with a
twelve-byte constant, so it can never be true. -/
def renderIP (ip_bytes : List Nat) : String :=
  if ip_bytes.take 12 = List.replicate 12 0 then
    inet_ntop4 (ip_bytes.drop 12)
  else if ip_bytes.take 10 = List.replicate 10 0 ++ [0xFF, 0xFF] then
    inet_ntop4 (ip_bytes.drop 12)
  else
    inet_ntop6 ip_bytes

/-- The record loop of `decode_addr_payload` (lines 147-175): for each of
`count` iterations check that 30 bytes remain, then read timestamp
(`<I` at `offset`), services (`<Q` at `offset+4`), the 16 raw IP bytes,
and the port (`>H`, network byte order, at `offset+28`). -/
def decodeLoop (payload : List Nat) : Nat → Nat → Except Err (List Peer)
  | 0, _ => .ok []
  | count + 1, offset =>
    if payload.length < offset + 30 then .error .truncated
    else
      let ts := leVal ((payload.drop offset).take 4)
      let services := leVal ((payload.drop (offset + 4)).take 8)
      let ip_bytes := (payload.drop (offset + 12)).take 16
      let port := beVal ((payload.drop (offset + 28)).take 2)
      match decodeLoop payload count (offset + 30) with
      | .ok rest => .ok ({ timestamp := ts, services := services,
                           ip := renderIP ip_bytes, port := port } :: rest)
      | .error e => .error e

/-- `decode_addr_payload(payload)` from the source: CompactSize count,
then `count` 30-byte records. -/
def decode_addr_payload (payload : List Nat) : Except Err (List Peer) :=
  match parseCompactSize payload with
  | .error e => .error e
  | .ok (count, offset) => decodeLoop payload count offset

/-- The fields a 30-byte wire record decodes to (how the claims describe
one record; `decodeLoop` is proved to produce exactly this). -/
def peerOfRecord (r : List Nat) : Peer :=
  { timestamp := leVal (r.take 4)
    services := leVal ((r.drop 4).take 8)
    ip := renderIP ((r.drop 12).take 16)
    port := beVal ((r.drop 28).take 2) }

/-! ## CompactSizeCodec: canonical encoder -/

/-- Modelled from the spec: the repository only ever decodes CompactSize
values, so no encoder exists in the source; the spec (§4.2) requires a
canonical encoder choosing the smallest form whose range covers the
value.  This follows the spec's table. -/
def encodeCompactSize (v : Nat) : List Nat :=
  if v < 0xFD then [v]
  else if v ≤ 0xFFFF then 0xFD :: leBytes 2 v
  else if v ≤ 0xFFFFFFFF then 0xFE :: leBytes 4 v
  else 0xFF :: leBytes 8 v

/-! ## HandshakeStateMachine: the version/verack loop of `main`
(lines 190-200)

After sending its version message the source reads exactly two messages;
on `"version"` it sends a `"verack"`, on anything else it sends nothing,
and after the two reads it proceeds (established).  The model consumes
message commands from a list and records, for each consumed command, the
commands sent in response to it; `none` means the incoming list was
exhausted before the two reads (in the source, `read_msg` raising). -/
def handshakeTrace : Nat → List String → Option (List (String × List String) × List String)
  | 0, incoming => some ([], incoming)
  | _ + 1, [] => none
  | n + 1, cmd :: rest =>
    let responses := if cmd = "version" then ["verack"] else []
    match handshakeTrace n rest with
    | some (steps, rem) => some ((cmd, responses) :: steps, rem)
    | none => none

/-! ## Helper lemmas -/

theorem length_leBytes (w v : Nat) : (leBytes w v).length = w := by
  induction w generalizing v with
  | zero => rfl
  | succ w ih => simp [leBytes, ih]

theorem length_beBytes (w v : Nat) : (beBytes w v).length = w := by
  induction w generalizing v with
  | zero => rfl
  | succ w ih => simp [beBytes, ih]

theorem leVal_leBytes (w v : Nat) (h : v < 256 ^ w) : leVal (leBytes w v) = v := by
  induction w generalizing v with
  | zero => simp [leBytes, leVal]; omega
  | succ w ih =>
    have hdiv : v / 256 < 256 ^ w := by
      rw [Nat.div_lt_iff_lt_mul (by norm_num)]
      calc v < 256 ^ (w + 1) := h
        _ = 256 ^ w * 256 := by ring
    simp [leBytes, leVal, ih _ hdiv]
    omega

theorem length_sha256 (msg : List Nat) : (sha256 msg).length = 32 := by
  simp [sha256, length_beBytes]

theorem length_double_sha256 (b : List Nat) : (double_sha256 b).length = 32 := by
  simp [double_sha256, length_sha256]

theorem take_left_of_length (l₁ l₂ : List Nat) (n : Nat) (h : l₁.length = n) :
    (l₁ ++ l₂).take n = l₁ := by
  subst h; exact List.take_left l₁ l₂

theorem drop_left_of_length (l₁ l₂ : List Nat) (n : Nat) (h : l₁.length = n) :
    (l₁ ++ l₂).drop n = l₂ := by
  subst h; exact List.drop_left l₁ l₂

/-! ## C7: CompactSize decoding -/

/-- C7: CompactSize decoding reads the first byte and: below 0xFD,
returns that byte having consumed 1 byte; for 0xFD, the next 2 bytes as
little-endian u16 having consumed 3; for 0xFE, the next 4 as
little-endian u32 having consumed 5; for 0xFF, the next 8 as
little-endian u64 having consumed 9. -/
theorem compactsize_decode_forms :
    (∀ (b : Nat) (rest : List Nat), b < 0xFD →
      parseCompactSize (b :: rest) = .ok (b, 1)) ∧
    (∀ (x0 x1 : Nat) (rest : List Nat),
      parseCompactSize (0xFD :: x0 :: x1 :: rest) = .ok (leVal [x0, x1], 3)) ∧
    (∀ (x0 x1 x2 x3 : Nat) (rest : List Nat),
      parseCompactSize (0xFE :: x0 :: x1 :: x2 :: x3 :: rest) =
        .ok (leVal [x0, x1, x2, x3], 5)) ∧
    (∀ (x0 x1 x2 x3 x4 x5 x6 x7 : Nat) (rest : List Nat),
      parseCompactSize (0xFF :: x0 :: x1 :: x2 :: x3 :: x4 :: x5 :: x6 :: x7 :: rest) =
        .ok (leVal [x0, x1, x2, x3, x4, x5, x6, x7], 9)) := by
  refine ⟨?_, ?_, ?_, ?_⟩
  · intro b rest hb
    simp [parseCompactSize, hb]
  · intro x0 x1 rest
    simp [parseCompactSize]
  · intro x0 x1 x2 x3 rest
    simp [parseCompactSize]
  · intro x0 x1 x2 x3 x4 x5 x6 x7 rest
    simp [parseCompactSize]

/-- Witness for C7: each of the four forms evaluated at concrete bytes. -/
theorem compactsize_decode_forms_witness :
    parseCompactSize [5, 9] = .ok (5, 1) ∧
    parseCompactSize [0xFD, 1, 2] = .ok (leVal [1, 2], 3) ∧
    parseCompactSize [0xFE, 1, 2, 3, 4] = .ok (leVal [1, 2, 3, 4], 5) ∧
    parseCompactSize [0xFF, 1, 2, 3, 4, 5, 6, 7, 8] =
      .ok (leVal [1, 2, 3, 4, 5, 6, 7, 8], 9) :=
  ⟨compactsize_decode_forms.1 5 [9] (by decide),
   compactsize_decode_forms.2.1 1 2 [],
   compactsize_decode_forms.2.2.1 1 2 3 4 [],
   compactsize_decode_forms.2.2.2 1 2 3 4 5 6 7 8 []⟩

/-! ## C9: canonical CompactSize encoder round-trip -/

/-- C9: the canonical encoder (modelled from the spec) picks the
smallest form covering the value, and decoding the encoding with the
source's decoder recovers the value and the encoding's width. -/
theorem compactsize_roundtrip (v : Nat) (rest : List Nat)
    (hv : v < 18446744073709551616) :
    parseCompactSize (encodeCompactSize v ++ rest) =
      .ok (v, (encodeCompactSize v).length) ∧
    (encodeCompactSize v).length =
      (if v < 0xFD then 1 else if v < 65536 then 3
       else if v < 4294967296 then 5 else 9) := by
  unfold encodeCompactSize
  by_cases h1 : v < 0xFD
  · simp [parseCompactSize, h1]
  · by_cases h2 : v ≤ 0xFFFF
    · simp only [if_neg h1, if_pos h2]
      constructor
      · have htake : ((leBytes 2 v ++ rest).take 2) = leBytes 2 v :=
          take_left_of_length _ _ _ (length_leBytes 2 v)
        simp [parseCompactSize, length_leBytes, htake,
              leVal_leBytes 2 v (by norm_num; omega)]
      · simp [length_leBytes, h1, show v < 65536 by omega]
    · by_cases h3 : v ≤ 0xFFFFFFFF
      · simp only [if_neg h1, if_neg h2, if_pos h3]
        constructor
        · have htake : ((leBytes 4 v ++ rest).take 4) = leBytes 4 v :=
            take_left_of_length _ _ _ (length_leBytes 4 v)
          simp [parseCompactSize, length_leBytes, htake,
                leVal_leBytes 4 v (by norm_num; omega)]
        · simp [length_leBytes, h1, show ¬ v < 65536 by omega,
                show v < 4294967296 by omega]
      · simp only [if_neg h1, if_neg h2, if_neg h3]
        constructor
        · have htake : ((leBytes 8 v ++ rest).take 8) = leBytes 8 v :=
            take_left_of_length _ _ _ (length_leBytes 8 v)
          simp [parseCompactSize, length_leBytes, htake,
                leVal_leBytes 8 v (by norm_num; omega)]
        · simp [length_leBytes, h1, show ¬ v < 65536 by omega,
                show ¬ v < 4294967296 by omega]

/-- Witness for C9: the round-trip at 0x1234 (three-byte form). -/
theorem compactsize_roundtrip_witness :
    parseCompactSize (encodeCompactSize 0x1234 ++ [7]) =
      .ok (0x1234, (encodeCompactSize 0x1234).length) ∧
    (encodeCompactSize 0x1234).length =
      (if 0x1234 < 0xFD then 1 else if 0x1234 < 65536 then 3
       else if 0x1234 < 4294967296 then 5 else 9) :=
  compactsize_roundtrip 0x1234 [7] (by norm_num)

/-! ## C6: handshake reaches Established -/

/-- C6: after the version message is sent, if the next two messages are
one "version" and one "verack" in either order, the two-read loop
completes (the state machine is Established, having consumed exactly the
two messages) and exactly one "verack" is sent, attached to the step
that consumed the peer's "version". -/
theorem handshake_established (m1 m2 : String) (rest : List String)
    (h : (m1 = "version" ∧ m2 = "verack") ∨ (m1 = "verack" ∧ m2 = "version")) :
    handshakeTrace 2 (m1 :: m2 :: rest) =
      some ([(m1, if m1 = "version" then ["verack"] else []),
             (m2, if m2 = "version" then ["verack"] else [])], rest) ∧
    (if m1 = "version" then ["verack"] else []) ++
      (if m2 = "version" then ["verack"] else []) = ["verack"] := by
  rcases h with ⟨h1, h2⟩ | ⟨h1, h2⟩ <;> subst h1 <;> subst h2 <;>
    exact ⟨by simp [handshakeTrace], by simp⟩

/-- Witness for C6: the verack-before-version order. -/
theorem handshake_established_witness :
    handshakeTrace 2 ("verack" :: "version" :: ["ping"]) =
      some ([("verack", if "verack" = "version" then ["verack"] else []),
             ("version", if "version" = "version" then ["verack"] else [])], ["ping"]) ∧
    (if "verack" = "version" then ["verack"] else []) ++
      (if "version" = "version" then ["verack"] else []) = ["verack"] :=
  handshake_established "verack" "version" ["ping"] (Or.inr ⟨rfl, rfl⟩)

/-! ## C3: truncated address list yields no partial result -/

theorem decodeLoop_truncated (payload : List Nat) (count offset : Nat)
    (hc : 0 < count) (hlen : payload.length < offset + 30 * count) :
    decodeLoop payload count offset = .error .truncated := by
  induction count generalizing offset with
  | zero => omega
  | succ n ih =>
    by_cases h : payload.length < offset + 30
    · simp [decodeLoop, h]
    · have hn : 0 < n := by omega
      have hrec : decodeLoop payload n (offset + 30) = .error .truncated :=
        ih (offset + 30) hn (by omega)
      simp [decodeLoop, h, hrec]

/-- C3: whenever the declared CompactSize count exceeds the number of
complete 30-byte records that follow it, `decode_addr_payload` fails
with `truncated` and returns no records at all. -/
theorem addr_truncated_no_partial (payload : List Nat) (count offset : Nat)
    (hparse : parseCompactSize payload = .ok (count, offset))
    (hgt : (payload.length - offset) / 30 < count) :
    decode_addr_payload payload = .error .truncated := by
  have hc : 0 < count := by omega
  have h30 : payload.length < offset + 30 * count := by omega
  unfold decode_addr_payload
  rw [hparse]
  exact decodeLoop_truncated payload count offset hc h30

/-- Witness for C3: count 2 with a single 30-byte record present. -/
theorem addr_truncated_no_partial_witness :
    decode_addr_payload (2 :: List.replicate 30 0) = .error .truncated :=
  addr_truncated_no_partial (2 :: List.replicate 30 0) 2 1 (by decide) (by decide)

/-! ## C10: over-long commands are silently truncated -/

/-- C10: for a command whose ASCII form is longer than 12 bytes,
`make_message` does not fail: the `"12s"` pack truncates the command to
its first 12 bytes in the header (which therefore differ from the full
command). -/
theorem long_command_truncated (cmd : String) (payload : List Nat)
    (hascii : cmd.data.all (fun c => c.toNat < 128) = true)
    (hlen : 12 < cmd.length)
    (hpay : payload.length < 4294967296) :
    make_message cmd payload =
      .ok (leBytes 4 MAGIC_MAINNET ++ (cmd.data.map Char.toNat).take 12 ++
           leBytes 4 payload.length ++ (double_sha256 payload).take 4 ++ payload) ∧
    (cmd.data.map Char.toNat).take 12 ≠ cmd.data.map Char.toNat := by
  have hd : 12 < cmd.data.length := hlen
  constructor
  · unfold make_message asciiEncode
    rw [if_pos hascii]
    have h0 : 12 - (cmd.data.map Char.toNat).length = 0 := by
      simp; omega
    have hcs : ((double_sha256 payload).take 4).length = 4 := by
      simp [length_double_sha256]
    have h1 : 12 - cmd.length = 0 := by omega
    simp [pack_s, h0, h1, hcs, hpay, List.take_take]
  · intro h
    have := congrArg List.length h
    simp at this
    omega

/-- Witness for C10: a 13-character command with an empty payload. -/
theorem long_command_truncated_witness :
    make_message "aaaaaaaaaaaaa" [] =
      .ok (leBytes 4 MAGIC_MAINNET ++
           ("aaaaaaaaaaaaa".data.map Char.toNat).take 12 ++
           leBytes 4 ([] : List Nat).length ++ (double_sha256 []).take 4 ++ []) ∧
    ("aaaaaaaaaaaaa".data.map Char.toNat).take 12 ≠
      "aaaaaaaaaaaaa".data.map Char.toNat :=
  long_command_truncated "aaaaaaaaaaaaa" [] (by decide) (by decide) (by decide)

/-! ## C1: IPv4-mapped addresses are not rendered dotted-decimal -/

/-- C1 (claim refuted — code bug): the source's IPv4-mapped test
compares `ip_bytes[:10]` (ten bytes) with the twelve-byte constant
`b"\x00"*10 + b"\xff\xff"`, which never matches, so the record whose IP
bytes are `00*10 FF FF 7F 00 00 01` takes the IPv6 branch and renders
as `"::ffff:127.0.0.1"`, not `"127.0.0.1"` as the claim states.  The
all-zero-prefix IPv4 branch does work as claimed (second conjunct). -/
theorem addr_ipv4_mapped_renders_ipv6 :
    decode_addr_payload
        [1, 0, 0, 0, 0, 0, 0, 0, 0, 0, 0, 0, 0,
         0, 0, 0, 0, 0, 0, 0, 0, 0, 0, 0xFF, 0xFF, 127, 0, 0, 1, 0x1A, 0x85] =
      .ok [{ timestamp := 0, services := 0, ip := "::ffff:127.0.0.1", port := 6789 }] ∧
    decode_addr_payload
        [1, 0, 0, 0, 0, 0, 0, 0, 0, 0, 0, 0, 0,
         0, 0, 0, 0, 0, 0, 0, 0, 0, 0, 0, 0, 127, 0, 0, 1, 0x1A, 0x85] =
      .ok [{ timestamp := 0, services := 0, ip := "127.0.0.1", port := 6789 }] ∧
    ("::ffff:127.0.0.1" : String) ≠ "127.0.0.1" :=
  ⟨by decide, by decide, by decide⟩

/-! ## C2: version-payload ports are packed little-endian, not big-endian -/

/-- C2 (claim refuted — code bug): `make_version_payload` packs the two
address-block ports with `"<Q16sH"`, so the receiver-port bytes (offset
44) and sender-port bytes (offset 70) of the payload are the
little-endian `8D 20` for port 8333, where network byte order (the
claimed big-endian) would be `20 8D`. -/
theorem version_payload_ports_little_endian :
    Except.map (fun p => ((p.drop 44).take 2, (p.drop 70).take 2))
        (make_version_payload 70015 0 0 [0, 0, 0, 0] 8333 [0, 0, 0, 0] 8333 0
          [47, 109, 121, 99, 108, 105, 101, 110, 116, 58, 48, 46, 49, 47] 0 false) =
      .ok (leBytes 2 8333, leBytes 2 8333) ∧
    leBytes 2 8333 ≠ [8333 / 256, 8333 % 256] :=
  ⟨by decide, by decide⟩

/-! ## C5: recv-exact contract and EOF behaviour -/

theorem recvAllGo_length (chunks : List (List Nat)) :
    ∀ (n : Nat) (data d : List Nat) (r : List (List Nat)), data.length ≤ n →
      recvAllGo chunks n data = .ok (d, r) → d.length = n := by
  induction chunks with
  | nil =>
    intro n data d r hle h
    rw [recvAllGo] at h
    by_cases hlt : data.length < n
    · simp [hlt] at h
    · simp [hlt] at h
      obtain ⟨h1, -⟩ := h
      subst h1
      omega
  | cons c rest ih =>
    intro n data d r hle h
    rw [recvAllGo] at h
    by_cases hlt : data.length < n
    · simp only [if_pos hlt] at h
      by_cases he : (c.take (n - data.length)).isEmpty
      · simp [he] at h
      · by_cases hdr : (c.drop (n - data.length)).isEmpty
        · simp only [he, hdr, Bool.false_eq_true, if_false, if_true] at h
          exact ih n (data ++ c.take (n - data.length)) d r
            (by simp [List.length_take]; omega) h
        · simp only [he, hdr, Bool.false_eq_true, if_false] at h
          rw [Except.ok.injEq, Prod.mk.injEq] at h
          obtain ⟨h1, -⟩ := h
          subst h1
          rw [List.isEmpty_iff] at hdr
          have hdl : (c.drop (n - data.length)).length ≠ 0 :=
            fun h0 => hdr (List.length_eq_zero.mp h0)
          rw [List.length_drop] at hdl
          simp [List.length_take]
          omega
    · simp [hlt] at h
      obtain ⟨h1, -⟩ := h
      subst h1
      omega

theorem recvAllGo_eof (chunks : List (List Nat)) :
    ∀ (n : Nat) (data : List Nat),
      data.length + (chunks.map List.length).sum < n →
      recvAllGo chunks n data = .error .unexpectedEof := by
  induction chunks with
  | nil =>
    intro n data h
    simp at h
    rw [recvAllGo]
    simp [h]
  | cons c rest ih =>
    intro n data h
    simp at h
    have hlt : data.length < n := by omega
    rw [recvAllGo]
    simp only [if_pos hlt]
    by_cases he : (c.take (n - data.length)).isEmpty
    · simp [he]
    · have hcl : c.length ≤ n - data.length := by omega
      have hdr : (c.drop (n - data.length)).isEmpty = true := by
        rw [List.isEmpty_iff, List.drop_eq_nil_iff]
        exact hcl
      have htk : c.take (n - data.length) = c := List.take_of_length_le hcl
      simp only [he, hdr, if_true, Bool.false_eq_true, if_false]
      apply ih
      simp [htk]
      omega

/-- C5: `recv_all(n)` returns exactly `n` bytes on success (absorbing
partial deliveries); it fails with `unexpectedEof` whenever the
connection closes before `n` bytes arrive; and a connection closed
before the full 24-byte header makes `read_msg` fail with
`unexpectedEof` — never a checksum or magic error. -/
theorem recv_exact_contract :
    (∀ (chunks : List (List Nat)) (n : Nat) (d : List Nat) (r : List (List Nat)),
      recv_all chunks n = .ok (d, r) → d.length = n) ∧
    (∀ (chunks : List (List Nat)) (n : Nat),
      (chunks.map List.length).sum < n → recv_all chunks n = .error .unexpectedEof) ∧
    (∀ (stream : List (List Nat)),
      (stream.map List.length).sum < 24 → read_msg stream = .error .unexpectedEof) := by
  refine ⟨?_, ?_, ?_⟩
  · intro chunks n d r h
    exact recvAllGo_length chunks n [] d r (by simp) h
  · intro chunks n h
    exact recvAllGo_eof chunks n [] (by simpa using h)
  · intro stream h
    have he : recv_all stream 24 = .error .unexpectedEof :=
      recvAllGo_eof stream 24 [] (by simpa using h)
    unfold read_msg
    rw [he]

/-- Witness for C5: a three-byte read across two chunks returns exactly
three bytes; two-byte streams starve both `recv_all` and `read_msg`. -/
theorem recv_exact_contract_witness :
    ([1, 2, 3] : List Nat).length = 3 ∧
    recv_all [[9], [8]] 3 = .error .unexpectedEof ∧
    read_msg [[1], [2]] = .error .unexpectedEof :=
  ⟨recv_exact_contract.1 [[1, 2], [3, 4]] 3 [1, 2, 3] [[4]] (by decide),
   recv_exact_contract.2.1 [[9], [8]] 3 (by decide),
   recv_exact_contract.2.2 [[1], [2]] (by decide)⟩

/-! ## C8: address-record layout -/

theorem append_drop_take (r x : List Nat) (a b : Nat) (hab : a + b ≤ r.length) :
    ((r ++ x).drop a).take b = (r.drop a).take b := by
  rw [List.drop_append_eq_append_drop]
  have h1 : a - r.length = 0 := by omega
  rw [h1, List.drop_zero, List.take_append_eq_append_take]
  have h2 : b - (r.drop a).length = 0 := by
    rw [List.length_drop]; omega
  rw [h2, List.take_zero, List.append_nil]

theorem decodeLoop_ok (records : List (List Nat)) :
    ∀ (pre : List Nat), (∀ r ∈ records, r.length = 30) →
      decodeLoop (pre ++ records.flatten) records.length pre.length =
        .ok (records.map peerOfRecord) := by
  induction records with
  | nil => intro pre _; simp [decodeLoop]
  | cons r rest ih =>
    intro pre h30
    have hr : r.length = 30 := h30 r (by simp)
    have hflat : (r :: rest).flatten = r ++ rest.flatten := by simp
    have hlen : (pre ++ (r :: rest).flatten).length =
        pre.length + 30 + rest.flatten.length := by
      simp [hflat, hr]; omega
    have hdropPre : (pre ++ (r :: rest).flatten).drop pre.length =
        r ++ rest.flatten := by
      rw [hflat]; exact List.drop_left pre _
    have hdrop : ∀ k, (pre ++ (r :: rest).flatten).drop (pre.length + k) =
        (r ++ rest.flatten).drop k := by
      intro k
      rw [← List.drop_drop k pre.length, hdropPre]
    have hts : ((pre ++ (r :: rest).flatten).drop pre.length).take 4 = r.take 4 := by
      rw [hdropPre, ← List.drop_zero (r ++ rest.flatten)]
      rw [append_drop_take r rest.flatten 0 4 (by omega), List.drop_zero]
    have hsv : ((pre ++ (r :: rest).flatten).drop (pre.length + 4)).take 8 =
        (r.drop 4).take 8 := by
      rw [hdrop 4, append_drop_take r rest.flatten 4 8 (by omega)]
    have hip : ((pre ++ (r :: rest).flatten).drop (pre.length + 12)).take 16 =
        (r.drop 12).take 16 := by
      rw [hdrop 12, append_drop_take r rest.flatten 12 16 (by omega)]
    have hpt : ((pre ++ (r :: rest).flatten).drop (pre.length + 28)).take 2 =
        (r.drop 28).take 2 := by
      rw [hdrop 28, append_drop_take r rest.flatten 28 2 (by omega)]
    have hrec : decodeLoop (pre ++ (r :: rest).flatten) rest.length (pre.length + 30) =
        .ok (rest.map peerOfRecord) := by
      have hassoc : pre ++ (r :: rest).flatten = (pre ++ r) ++ rest.flatten := by
        simp [hflat]
      have hlen30 : (pre ++ r).length = pre.length + 30 := by simp [hr]
      rw [hassoc, ← hlen30]
      exact ih (pre ++ r) (fun q hq => h30 q (by simp [hq]))
    show decodeLoop (pre ++ (r :: rest).flatten) (rest.length + 1) pre.length = _
    rw [decodeLoop]
    simp only [hlen, hts, hsv, hip, hpt, hrec]
    have hnotlt : ¬ (pre.length + 30 + rest.flatten.length < pre.length + 30) := by omega
    simp [hnotlt, peerOfRecord]

/-- C8: each address record is 30 bytes, decoded as little-endian u32
timestamp, little-endian u64 services, 16 raw IP bytes in wire order,
and big-endian u16 port; the output preserves wire order and has length
exactly `count`. -/
theorem addr_record_layout (head : List Nat) (records : List (List Nat))
    (hparse : parseCompactSize (head ++ records.flatten) =
      .ok (records.length, head.length))
    (h30 : ∀ r ∈ records, r.length = 30) :
    decode_addr_payload (head ++ records.flatten) = .ok (records.map peerOfRecord) ∧
    (records.map peerOfRecord).length = records.length := by
  constructor
  · unfold decode_addr_payload
    rw [hparse]
    exact decodeLoop_ok records head h30
  · simp

/-- Witness for C8: one record with port bytes `1A 85`, which decodes to
port 6789. -/
theorem addr_record_layout_witness :
    decode_addr_payload ([1] ++ [[1, 0, 0, 0, 2, 0, 0, 0, 0, 0, 0, 0,
        0, 0, 0, 0, 0, 0, 0, 0, 0, 0, 0, 0, 127, 0, 0, 1, 0x1A, 0x85]].flatten) =
      .ok ([[1, 0, 0, 0, 2, 0, 0, 0, 0, 0, 0, 0,
        0, 0, 0, 0, 0, 0, 0, 0, 0, 0, 0, 0, 127, 0, 0, 1, 0x1A, 0x85]].map peerOfRecord) ∧
    (peerOfRecord [1, 0, 0, 0, 2, 0, 0, 0, 0, 0, 0, 0,
        0, 0, 0, 0, 0, 0, 0, 0, 0, 0, 0, 0, 127, 0, 0, 1, 0x1A, 0x85]).port = 6789 :=
  ⟨(addr_record_layout [1] [[1, 0, 0, 0, 2, 0, 0, 0, 0, 0, 0, 0,
        0, 0, 0, 0, 0, 0, 0, 0, 0, 0, 0, 0, 127, 0, 0, 1, 0x1A, 0x85]]
      (by decide) (by decide)).1,
   by decide⟩

/-! ## C4: message-frame round-trip -/

theorem dropWhile_zeros (k : Nat) (ys : List Nat) :
    (List.replicate k 0 ++ ys).dropWhile (fun x => x == 0) =
      ys.dropWhile (fun x => x == 0) := by
  induction k with
  | zero => simp
  | succ n ih => simpa [List.replicate_succ, List.dropWhile] using ih

theorem rstripZeros_append_replicate (xs : List Nat) (k : Nat) :
    rstripZeros (xs ++ List.replicate k 0) = rstripZeros xs := by
  unfold rstripZeros
  rw [List.reverse_append, List.reverse_replicate, dropWhile_zeros]

theorem pack_s_eq_self (n : Nat) (b : List Nat) (h : b.length = n) :
    pack_s n b = b := by
  unfold pack_s
  rw [← h, List.take_length]
  simp

theorem recv_all_full (c : List Nat) (hc : c ≠ []) :
    recv_all [c] c.length = .ok (c, []) := by
  unfold recv_all
  rw [recvAllGo]
  have hpos : 0 < c.length := List.length_pos.mpr hc
  have htk : c.take (c.length - 0) = c := by simp
  have hdr : (c.drop (c.length - 0)).isEmpty = true := by simp
  have hne : (c.take (c.length - 0)).isEmpty = false := by
    simp [List.isEmpty_eq_false, hc]
  simp only [List.length_nil, hpos, if_true, htk, hdr, hne, Bool.false_eq_true, if_false]
  rw [recvAllGo]
  simp
  exact hc

theorem recv_all_split (a b : List Nat) (hb : b ≠ []) :
    recv_all [a ++ b] a.length = .ok (a, [b]) := by
  unfold recv_all
  rw [recvAllGo]
  by_cases ha : a = []
  · subst ha; simp
  · have hpos : 0 < a.length := List.length_pos.mpr ha
    have htk : (a ++ b).take (a.length - 0) = a := by
      simpa using List.take_left a b
    have hdrop : (a ++ b).drop (a.length - 0) = b := by
      simpa using List.drop_left a b
    have hne : ((a ++ b).take (a.length - 0)).isEmpty = false := by
      rw [htk]; simp [List.isEmpty_eq_false, ha]
    have hde : ((a ++ b).drop (a.length - 0)).isEmpty = false := by
      rw [hdrop]; simp [List.isEmpty_eq_false, hb]
    simp only [List.length_nil, hpos, if_true, htk, hdrop, hne, hde,
               Bool.false_eq_true, if_false]
    simp [ha, hb]

theorem make_message_ok (cmd : String) (payload : List Nat)
    (ha : cmd.data.all (fun c => c.toNat < 128) = true)
    (hp : payload.length < 4294967296) :
    make_message cmd payload =
      .ok (leBytes 4 MAGIC_MAINNET ++
           pack_s 12 (cmd.data.map Char.toNat ++
             List.replicate (12 - (cmd.data.map Char.toNat).length) 0) ++
           leBytes 4 payload.length ++
           pack_s 4 ((double_sha256 payload).take 4) ++ payload) := by
  unfold make_message asciiEncode
  rw [if_pos ha]
  simp [hp]

/-- C4 (amended): for every command that encodes as ASCII in at most 12
bytes and is unchanged by trailing-zero stripping, and every payload,
whenever `make_message` produces a message, `read_msg` decodes that
message back to exactly the command and payload (consuming the whole
stream).  Stated with `Except.bind`/`Except.map` so that inputs on
which `make_message` itself raises (non-ASCII command, payload length
not fitting `"<I"`) are covered trivially on both sides. -/
theorem message_roundtrip (cmd : String) (payload : List Nat)
    (hlen : cmd.length ≤ 12)
    (hnz : rstripZeros (cmd.data.map Char.toNat) = cmd.data.map Char.toNat) :
    Except.bind (make_message cmd payload) (fun m => read_msg [m]) =
      Except.map (fun _ => ((cmd, payload), ([] : List (List Nat))))
        (make_message cmd payload) := by
  by_cases ha : cmd.data.all (fun c => c.toNat < 128) = true
  case neg =>
    have hmk : make_message cmd payload = .error .invalidCommandEncoding := by
      unfold make_message asciiEncode
      rw [if_neg ha]
    rw [hmk]
    rfl
  case pos =>
    by_cases hp : payload.length < 4294967296
    case neg =>
      have hmk : make_message cmd payload = .error .valueError := by
        unfold make_message asciiEncode
        rw [if_pos ha]
        simp [hp]
      rw [hmk]
      rfl
    case pos =>
      have hdlen : cmd.data.length ≤ 12 := hlen
      have hmk := make_message_ok cmd payload ha hp
      rw [hmk]
      show read_msg [_] = .ok ((cmd, payload), [])
      -- name the four header fields
      set A := leBytes 4 MAGIC_MAINNET with hA
      set C := leBytes 4 payload.length with hC
      have hBpack : pack_s 12 (cmd.data.map Char.toNat ++
          List.replicate (12 - (cmd.data.map Char.toNat).length) 0) =
          cmd.data.map Char.toNat ++
          List.replicate (12 - (cmd.data.map Char.toNat).length) 0 := by
        apply pack_s_eq_self
        simp
        omega
      have hDpack : pack_s 4 ((double_sha256 payload).take 4) =
          (double_sha256 payload).take 4 := by
        apply pack_s_eq_self
        simp [length_double_sha256]
      rw [hBpack, hDpack]
      set B := cmd.data.map Char.toNat ++
        List.replicate (12 - (cmd.data.map Char.toNat).length) 0 with hB
      set D := (double_sha256 payload).take 4 with hD
      have hAlen : A.length = 4 := length_leBytes 4 _
      have hBlen : B.length = 12 := by
        rw [hB]
        simp
        omega
      have hClen : C.length = 4 := length_leBytes 4 _
      have hDlen : D.length = 4 := by
        rw [hD]
        simp [length_double_sha256]
      set header := A ++ B ++ C ++ D with hh
      have hMeq : A ++ B ++ C ++ D ++ payload = header ++ payload := by
        rw [hh]
      have hHlen : header.length = 24 := by
        rw [hh]
        simp [hAlen, hBlen, hClen, hDlen]
      -- header slicing
      have hslice1 : header.take 4 = A := by
        rw [hh, List.append_assoc, List.append_assoc]
        exact take_left_of_length _ _ _ hAlen
      have hslice2 : (header.drop 4).take 12 = B := by
        rw [hh, List.append_assoc, List.append_assoc,
            drop_left_of_length _ _ _ hAlen]
        exact take_left_of_length _ _ _ hBlen
      have hslice3 : (header.drop 16).take 4 = C := by
        have h16 : (A ++ B).length = 16 := by
          rw [List.length_append, hAlen, hBlen]
        rw [hh, List.append_assoc (A ++ B) C D, drop_left_of_length _ _ _ h16]
        exact take_left_of_length _ _ _ hClen
      have hslice4 : (header.drop 20).take 4 = D := by
        have h20 : (A ++ B ++ C).length = 20 := by
          simp [hAlen, hBlen, hClen]
        rw [hh, drop_left_of_length _ _ _ h20]
        exact List.take_of_length_le (by omega)
      have hmagic : leVal A = MAGIC_MAINNET := by
        rw [hA]
        exact leVal_leBytes 4 _ (by norm_num [MAGIC_MAINNET])
      have hlength : leVal C = payload.length := by
        rw [hC]
        exact leVal_leBytes 4 _ (by norm_num; exact hp)
      have hstrip : rstripZeros B = cmd.data.map Char.toNat := by
        rw [hB, rstripZeros_append_replicate]
        exact hnz
      have hdecode : asciiDecode (cmd.data.map Char.toNat) = .ok cmd := by
        unfold asciiDecode
        have hall : ((cmd.data.map Char.toNat).all fun x => decide (x < 128)) = true := by
          simpa [List.all_map, Function.comp] using ha
        rw [if_pos hall]
        congr 1
        apply String.ext
        simp only [List.map_map]
        rw [show Char.ofNat ∘ Char.toNat = id from funext Char.ofNat_toNat, List.map_id]
      have hne : header ≠ [] := by
        intro hcon
        rw [hcon] at hHlen
        simp at hHlen
      by_cases hpay : payload = []
      case pos =>
        subst hpay
        have hrecv1 : recv_all [header ++ []] 24 = .ok (header, []) := by
          rw [List.append_nil, ← hHlen]
          exact recv_all_full header hne
        have hrecv2 : recv_all [] 0 = .ok ([], []) := by
          unfold recv_all
          rw [recvAllGo]
          simp
        unfold read_msg
        rw [hrecv1]
        simp [hslice1, hslice2, hslice3, hslice4, hmagic, hstrip, hdecode,
              hlength, hrecv2, hD]
      case neg =>
        have hrecv1 : recv_all [header ++ payload] 24 = .ok (header, [payload]) := by
          rw [← hHlen]
          exact recv_all_split header payload hpay
        have hrecv2 : recv_all [payload] payload.length = .ok (payload, []) :=
          recv_all_full payload hpay
        unfold read_msg
        rw [hrecv1]
        simp [hslice1, hslice2, hslice3, hslice4, hmagic, hstrip, hdecode,
              hlength, hrecv2, hD]

/-- Witness for C4 (amended): the round-trip at command "ping" with an
empty payload. -/
theorem message_roundtrip_witness :
    ("ping" : String).length ≤ 12 ∧
    rstripZeros ("ping".data.map Char.toNat) = "ping".data.map Char.toNat ∧
    Except.bind (make_message "ping" []) (fun m => read_msg [m]) =
      Except.map (fun _ => ((("ping" : String), ([] : List Nat)), ([] : List (List Nat))))
        (make_message "ping" []) :=
  ⟨by decide, by decide, message_roundtrip "ping" [] (by decide) (by decide)⟩

/-- Counterexample to C4 as stated: the command `"\x00"` encodes as
ASCII in one byte, yet the round-trip returns the command `""` — the
header zero-pads the command field and the decoder strips all trailing
zero bytes, including those of the command itself. -/
theorem message_roundtrip_cex :
    Except.bind (make_message "\x00" []) (fun m => read_msg [m]) =
      .ok ((("" : String), ([] : List Nat)), ([] : List (List Nat))) ∧
    Except.map (fun _ => ((("\x00" : String), ([] : List Nat)), ([] : List (List Nat))))
        (make_message "\x00" []) =
      .ok ((("\x00" : String), ([] : List Nat)), ([] : List (List Nat))) ∧
    ("" : String) ≠ "\x00" :=
  ⟨by decide, by decide, by decide⟩
